import Mathlib

/-!
Verification of the GPU-Miner orchestration core.

This file is a shallow embedding, in Lean 4, of the parts of the
repository that the specification's testable properties talk about:

* `SolutionSubmissionQueue._process_queue` and `APIClient.submit_solution`
  (src/core/networking.py) — the resilient submission pipeline;
* the per-task-result handling of `MinerManager._manage_mining`
  (src/core/miner_manager.py) — solve records, solution rows, counters,
  and the padding of short GPU responses;
* `Database.get_unsolved_challenge_for_wallet` and
  `Database.get_total_solutions` (src/core/database.py);
* `GPUEngine._execute_mine` (src/gpu_core/engine.py);
* `WalletManager.ensure_dev_wallets` (src/core/wallet_manager.py) and
  `_decode_dev_address` (src/core/dev_fee.py).

Modelling conventions: wall-clock timestamps are integers counting
seconds (the source works with `datetime` values; only differences in
seconds are ever inspected); byte strings are lists of naturals; the
SQLite tables are association lists kept in insertion order; Python
exceptions on dictionary access are modelled with `Option` fields.
-/

/-! ## Submission pipeline (src/core/networking.py) -/

/-- One entry of the pipeline's in-memory retry set, as built by
`SolutionSubmissionQueue.submit`: wallet address, challenge id, nonce,
creation time and attempt counter. -/
structure Submission where
  wallet_address : String
  challenge_id : String
  nonce : String
  created_at : Int
  attempts : Nat
deriving DecidableEq, Repr

/-- Outcome of one direct submission call
(`APIClient._submit_solution_direct`): `(True, False)` is success,
`(False, True)` a fatal 400/409 rejection, `(False, False)` transient. -/
inductive SubmitOutcome where
  | success
  | fatal
  | transient
deriving DecidableEq, Repr

/-- Observable event of one processing pass, used to state which
submissions were attempted or dropped. -/
inductive QueueEvent where
  | expired (s : Submission)
  | attempted (s : Submission) (o : SubmitOutcome)
deriving DecidableEq, Repr

/-- The fixed transient-retry delay of `_process_queue`
(`retry_delay = 300`, five minutes). -/
def retryDelaySeconds : Int := 300

/-- Handling of a single retry-set entry inside one pass of
`SolutionSubmissionQueue._process_queue` (networking.py lines 64-102):
drop it when its age exceeds the retention horizon, otherwise increment
`attempts` and attempt it; on success or fatal rejection drop it, on a
transient failure keep it with `created_at = now - age + retry_delay`.
`outcome` stands for the remote service's reply to this attempt. -/
def processOne (outcome : String → String → String → SubmitOutcome)
    (retryHours : Int) (now : Int) (s : Submission) :
    Option Submission × QueueEvent :=
  let age := now - s.created_at
  if age > retryHours * 3600 then
    (none, QueueEvent.expired s)
  else
    let s1 : Submission := { s with attempts := s.attempts + 1 }
    match outcome s.wallet_address s.challenge_id s.nonce with
    | SubmitOutcome.success => (none, QueueEvent.attempted s1 SubmitOutcome.success)
    | SubmitOutcome.fatal => (none, QueueEvent.attempted s1 SubmitOutcome.fatal)
    | SubmitOutcome.transient =>
        (some { s1 with created_at := now - age + retryDelaySeconds },
         QueueEvent.attempted s1 SubmitOutcome.transient)

/-- One full pass over the retry set, in list order, collecting the
entries that are still retrying plus the pass's events. -/
def processPass (outcome : String → String → String → SubmitOutcome)
    (retryHours : Int) (now : Int) :
    List Submission → List Submission × List QueueEvent
  | [] => ([], [])
  | s :: rest =>
      let first := processOne outcome retryHours now s
      let tail := processPass outcome retryHours now rest
      (match first.1 with
       | some s2 => s2 :: tail.1
       | none => tail.1,
       first.2 :: tail.2)

/-- Several consecutive passes of the processing loop, one per entry of
`times` (the wall-clock instants at which the passes run). -/
def runPasses (outcome : String → String → String → SubmitOutcome)
    (retryHours : Int) (q : List Submission) :
    List Int → List Submission × List QueueEvent
  | [] => (q, [])
  | t :: ts =>
      let p := processPass outcome retryHours t q
      let rest := runPasses outcome retryHours p.1 ts
      (rest.1, p.2 ++ rest.2)

/-- A remote service that answers every submission attempt with a
transient failure. -/
def alwaysTransient : String → String → String → SubmitOutcome :=
  fun _ _ _ => SubmitOutcome.transient

/-- `paced c bound times` holds when, assuming the single queue entry
was created at `c` and gains `retryDelaySeconds` of `created_at` per
pass, every pass time in `times` keeps its age within `bound`. -/
def paced (c : Int) (bound : Int) : List Int → Bool
  | [] => true
  | t :: ts => decide (t - c ≤ bound) && paced (c + retryDelaySeconds) bound ts

/-- `APIClient.submit_solution` (networking.py lines 241-257): enqueue a
pending submission with `attempts = 0` and unconditionally return
`(True, False)`. The first component is the queue after the enqueue,
the second the returned pair `(success, is_fatal)`. -/
def submit_solution (pending : List Submission)
    (wallet_address challenge_id nonce : String) (now : Int) :
    List Submission × (Bool × Bool) :=
  (pending ++ [⟨wallet_address, challenge_id, nonce, now, 0⟩], (true, false))

/-! ## Persistence layer (src/core/database.py) -/

/-- A row of the `solutions` table: challenge id, nonce, wallet address,
difficulty (NULL modelled as `none`), status and the hidden
`is_dev_solution` flag. -/
structure SolutionRow where
  challenge_id : String
  nonce : String
  address : String
  difficulty : Option String
  status : String
  is_dev_solution : Bool
deriving DecidableEq, Repr

/-- A row of the `challenges` table. `latest_submission` is the parsed
submission deadline in seconds; `none` models a NULL, empty, or
unparseable timestamp (all of which `get_unsolved_challenge_for_wallet`
skips). `no_pre_mine_hour` keeps its possible NULL. -/
structure ChallengeRow where
  challenge_id : String
  difficulty : String
  no_pre_mine : String
  no_pre_mine_hour : Option String
  latest_submission : Option Int
deriving DecidableEq, Repr

/-- The database state used by the claims: the `challenges` table and
the `wallet_challenges` solve-record table (pairs of wallet address and
challenge id). -/
structure Db where
  challenges : List ChallengeRow
  wallet_challenges : List (String × String)
deriving DecidableEq, Repr

/-- `Database.mark_challenge_solved` (database.py lines 190-200):
`INSERT OR IGNORE` of the (wallet, challenge) pair. -/
def mark_challenge_solved (db : Db) (wallet_address challenge_id : String) : Db :=
  if (wallet_address, challenge_id) ∈ db.wallet_challenges then db
  else { db with wallet_challenges := db.wallet_challenges ++ [(wallet_address, challenge_id)] }

/-- `Database.get_total_solutions` (database.py lines 177-188): count
accepted solutions, excluding dev solutions unless `include_dev`. -/
def get_total_solutions (rows : List SolutionRow) (include_dev : Bool) : Nat :=
  if include_dev then
    (rows.filter (fun r => r.status == "accepted")).length
  else
    (rows.filter (fun r => r.status == "accepted" && !r.is_dev_solution)).length

/-- Hex digit recognizer for `int(s, 16)` digits (database.py line 294).
Sign, whitespace and `0x` forms never occur in difficulty strings and
are not modelled. -/
def isHexDig (c : Char) : Bool :=
  c.isDigit || ('a' ≤ c && c ≤ 'f') || ('A' ≤ c && c ≤ 'F')

/-- Numeric value of one hex digit. -/
def hexVal (c : Char) : Nat :=
  if c.isDigit then c.toNat - '0'.toNat
  else if 'a' ≤ c && c ≤ 'f' then c.toNat - 'a'.toNat + 10
  else c.toNat - 'A'.toNat + 10

/-- `int(difficulty[:8], 16)` (database.py line 294): parse the leading
(at most) eight characters of the difficulty string as hexadecimal;
`none` models the `ValueError` on an empty or non-hex slice. -/
def parseHexLead (s : String) : Option Nat :=
  let t := s.toList.take 8
  if t.isEmpty then none
  else if t.all isHexDig then some (t.foldl (fun a c => a * 16 + hexVal c) 0)
  else none

/-- The challenge ids already solved by a wallet, as selected by the
`NOT IN` subquery of `get_unsolved_challenge_for_wallet`. -/
def solvedFor (db : Db) (wallet_address : String) : List String :=
  (db.wallet_challenges.filter (fun p => p.1 == wallet_address)).map (fun p => p.2)

/-- The dictionary built for the best row by
`get_unsolved_challenge_for_wallet` (database.py lines 300-316), with
`latest_submission` carried as its parsed deadline and a NULL
`no_pre_mine_hour` replaced by the empty string. -/
structure BestChallenge where
  challenge_id : String
  difficulty : String
  no_pre_mine : String
  latest_submission : Int
  no_pre_mine_hour : String
deriving DecidableEq, Repr

/-- Build the result dictionary from a challenge row and its parsed
deadline. -/
def mkBest (row : ChallengeRow) (deadline : Int) : BestChallenge :=
  ⟨row.challenge_id, row.difficulty, row.no_pre_mine, deadline,
   row.no_pre_mine_hour.getD ""⟩

/-- The body of the row loop of `get_unsolved_challenge_for_wallet`
(database.py lines 276-317): skip rows without a parseable deadline,
rows with at most 120 seconds left, and rows whose difficulty does not
parse; otherwise keep the row with the lowest difficulty value, ties
broken by the earlier deadline. The accumulator carries the current
best dictionary together with `best_diff`. -/
def considerRow (now : Int) (acc : Option (BestChallenge × Nat))
    (row : ChallengeRow) : Option (BestChallenge × Nat) :=
  match row.latest_submission with
  | none => acc
  | some deadline =>
      if deadline - now ≤ 120 then acc
      else
        match parseHexLead row.difficulty with
        | none => acc
        | some difficulty_val =>
            match acc with
            | none => some (mkBest row deadline, difficulty_val)
            | some (best, best_diff) =>
                if difficulty_val < best_diff then
                  some (mkBest row deadline, difficulty_val)
                else if difficulty_val = best_diff ∧ deadline < best.latest_submission then
                  some (mkBest row deadline, difficulty_val)
                else acc

/-- `Database.get_unsolved_challenge_for_wallet` (database.py lines
254-322): among challenges not in the wallet's solve-record set, return
the eligible one with the lowest difficulty value, ties broken by the
earlier deadline. -/
def get_unsolved_challenge_for_wallet (db : Db) (wallet_address : String)
    (now : Int) : Option BestChallenge :=
  let rows := db.challenges.filter
    (fun r => !(solvedFor db wallet_address).contains r.challenge_id)
  (rows.foldl (considerRow now) none).map (fun p => p.1)

/-! ## Scheduler result handling (src/core/miner_manager.py) -/

/-- A task result as read from the GPU response
(`result.get('found')`, `result.get('nonce')`). -/
structure GpuTaskResult where
  found : Bool
  nonce : Option Nat
deriving DecidableEq, Repr

/-- Per-task metadata kept by the scheduler in `batch_metadata`
(miner_manager.py lines 293-297), reduced to the fields its result
handling reads: wallet address, challenge id, the challenge's
difficulty string (possibly absent) and the dev-routing flag. -/
structure TaskMeta where
  wallet_address : String
  challenge_id : String
  difficulty : Option String
  is_dev_solution : Bool
deriving DecidableEq, Repr

/-- The scheduler state touched by result handling: the session
counters, the per-wallet session counters, the `current_difficulty`
snapshot, the persisted solve records and solution rows, and the
submission pipeline's enqueue list. -/
structure MinerState where
  session_solutions : Nat
  dev_session_solutions : Nat
  wallet_session_solutions : List (String × Nat)
  current_difficulty : Option String
  db : Db
  solutions : List SolutionRow
  pending : List Submission
deriving DecidableEq, Repr

/-- `Database.add_solution` (database.py lines 156-165): insert a row
with the default status `pending`. -/
def add_solution (rows : List SolutionRow)
    (challenge_id nonce address : String) (difficulty : Option String)
    (is_dev_solution : Bool) : List SolutionRow :=
  rows ++ [⟨challenge_id, nonce, address, difficulty, "pending", is_dev_solution⟩]

/-- `Database.update_solution_status` (database.py lines 167-175): set
the status of every row matching the (challenge id, nonce) pair. -/
def update_solution_status (rows : List SolutionRow)
    (challenge_id nonce status : String) : List SolutionRow :=
  rows.map (fun r =>
    if r.challenge_id == challenge_id && r.nonce == nonce then
      { r with status := status }
    else r)

/-- Increment of `self.wallet_session_solutions[wallet_addr]`
(miner_manager.py line 387). The source pre-initializes the key for
every non-dev batch entry (lines 305-309), so the key is present when
the increment runs; an absent key is inserted with count 1. -/
def bumpWallet : List (String × Nat) → String → List (String × Nat)
  | [], w => [(w, 1)]
  | (a, n) :: rest, w =>
      if a == w then (a, n + 1) :: rest else (a, n) :: bumpWallet rest w

/-- The pre-initialization of the per-wallet counters for a batch
(miner_manager.py lines 305-309): every non-dev wallet of the batch
gets a zero entry if it has none yet. -/
def initWalletCounters : List (String × Nat) → List TaskMeta → List (String × Nat)
  | m, [] => m
  | m, meta :: rest =>
      let m2 :=
        if meta.is_dev_solution then m
        else if (m.map (fun p => p.1)).contains meta.wallet_address then m
        else m ++ [(meta.wallet_address, 0)]
      initWalletCounters m2 rest

/-- `f"{nonce_int:016x}"` (miner_manager.py line 357) for a 64-bit
nonce: sixteen lowercase hex digits, most significant first. -/
def hexDigitChar (n : Nat) : Char :=
  if n < 10 then Char.ofNat ('0'.toNat + n) else Char.ofNat ('a'.toNat + (n - 10))

/-- Format a (64-bit) nonce as its 16-character lowercase hex string. -/
def nonceHex (n : Nat) : String :=
  String.mk (((List.range 16).reverse).map (fun i => hexDigitChar (n / 16 ^ i % 16)))

/-- Handling of one (metadata, task result) pair by
`MinerManager._manage_mining` (miner_manager.py lines 349-402):
ignore not-found results and found results without a nonce; otherwise
hand the nonce to `submit_solution` — which enqueues it and returns
`(True, False)` — and, on the success return, mark the pair solved,
insert the solution row, set its status to `accepted` and bump the
session counters (dev solutions go to the hidden dev counter). The
`is_fatal` branch of the source is kept although the constant success
return makes it unreachable. -/
def handleTaskResult (st : MinerState) (meta : TaskMeta)
    (result : GpuTaskResult) (now : Int) : MinerState :=
  if !result.found then st
  else
    match result.nonce with
    | none => st
    | some nonce_val =>
        let nonce_hex := nonceHex nonce_val
        let wallet_addr := meta.wallet_address
        let challenge_id := meta.challenge_id
        let difficulty_str :=
          match meta.difficulty with
          | some d => some d
          | none => st.current_difficulty
        let is_dev_solution := meta.is_dev_solution
        let sub := submit_solution st.pending wallet_addr challenge_id nonce_hex now
        let st := { st with pending := sub.1 }
        let success := sub.2.1
        let is_fatal := sub.2.2
        if success then
          let st := { st with db := mark_challenge_solved st.db wallet_addr challenge_id }
          let st := { st with solutions := (add_solution st.solutions
            challenge_id nonce_hex wallet_addr difficulty_str is_dev_solution) }
          let st := { st with solutions := (update_solution_status st.solutions
            challenge_id nonce_hex "accepted") }
          if is_dev_solution then
            { st with dev_session_solutions := st.dev_session_solutions + 1 }
          else
            { st with session_solutions := st.session_solutions + 1,
                      wallet_session_solutions :=
                        bumpWallet st.wallet_session_solutions wallet_addr }
        else if is_fatal then
          let st := { st with db := mark_challenge_solved st.db wallet_addr challenge_id }
          let st := { st with solutions := (add_solution st.solutions
            challenge_id nonce_hex wallet_addr difficulty_str is_dev_solution) }
          { st with solutions := (update_solution_status st.solutions
            challenge_id nonce_hex "rejected") }
        else st

/-- The result loop of one cycle (miner_manager.py line 349): process
the zipped (metadata, result) pairs in order. -/
def processResults (st : MinerState) (pairs : List (TaskMeta × GpuTaskResult))
    (now : Int) : MinerState :=
  pairs.foldl (fun acc p => handleTaskResult acc p.1 p.2 now) st

/-! ## GPU response normalization (src/core/miner_manager.py lines 334-348) -/

/-- A completed GPU response as read by the scheduler: the optional
`task_results` list, and the legacy top-level `found`/`nonce` fields
used when `task_results` is absent or empty. -/
structure GpuManagerResponse where
  task_results : Option (List GpuTaskResult)
  found : Option Bool
  nonce : Option Nat
deriving DecidableEq, Repr

/-- Lines 338-347 of miner_manager.py: when `task_results` is absent or
empty, fall back to the legacy single-task shape built from the
top-level `found`/`nonce` fields; then pad the list to the batch size
`n` with `found = False` entries. -/
def normalizeResults (resp : GpuManagerResponse) (n : Nat) : List GpuTaskResult :=
  let task_results :=
    match resp.task_results with
    | none => [⟨resp.found.getD false, resp.nonce⟩]
    | some l => if l.isEmpty then [⟨resp.found.getD false, resp.nonce⟩] else l
  if task_results.length < n then
    task_results ++ List.replicate (n - task_results.length) ⟨false, none⟩
  else task_results

/-! ## Compute worker (src/gpu_core/engine.py) -/

/-- One task of a batched mine request as built by the scheduler
(miner_manager.py lines 288-292): the per-task salt bytes, the parsed
difficulty threshold and the random starting counter. The source names
the salt field `salt_prefix`. -/
structure GpuTask where
  salt_bytes : List Nat
  difficulty : Nat
  start_nonce : Nat
deriving DecidableEq, Repr

/-- A mine request as a worker receives it. The scheduler's batched
requests carry `id`, `rom_key` and `tasks` only (miner_manager.py lines
312-317); the three legacy top-level fields (`salt_prefix`,
`difficulty`, `start_nonce`) are `none` there, and `none` models a
`KeyError` when the worker subscripts them. -/
structure MineRequest where
  id : Nat
  rom_key : String
  tasks : List GpuTask
  top_salt : Option (List Nat)
  top_difficulty : Option Nat
  top_start_nonce : Option Nat
deriving DecidableEq, Repr

/-- A worker response: either the completed legacy single-result shape
of engine.py lines 226-233 (top-level `found`/`nonce` plus the batch
throughput figure) or the error shape of lines 238-241. -/
inductive EngineResponse where
  | completed (request_id : Nat) (found : Bool) (nonce : Option Nat) (hashes : Nat)
  | error (request_id : Nat) (msg : String)
deriving DecidableEq, Repr

/-- The batched request the scheduler sends for a given id, ROM key and
task list: no legacy top-level fields. -/
def schedulerMineRequest (id : Nat) (rom_key : String) (tasks : List GpuTask) :
    MineRequest :=
  ⟨id, rom_key, tasks, none, none, none⟩

/-- `GPUEngine._execute_mine` (engine.py lines 142-241). `romBuild`
tells whether the ROM for a key is resident or can be built
(`rom_handler.build_rom`); `kernel` is the search kernel, returning the
satisfying counter if the launch finds one. The function returns the
response together with the list of kernel launches performed
(salt bytes, difficulty, start nonce). Any exception inside the body —
a failed ROM build, or the `KeyError` from reading the legacy top-level
fields that the batched request does not carry — is caught and turned
into the error response; the `tasks` list is never read. -/
def executeMine (romBuild : String → Bool)
    (kernel : String → List Nat → Nat → Nat → Option Nat)
    (req : MineRequest) : EngineResponse × List (List Nat × Nat × Nat) :=
  if !romBuild req.rom_key then
    (EngineResponse.error req.id "Failed to build ROM", [])
  else
    match req.top_salt with
    | none => (EngineResponse.error req.id "KeyError: salt bytes", [])
    | some salt =>
        match req.top_difficulty with
        | none => (EngineResponse.error req.id "KeyError: difficulty", [])
        | some difficulty =>
            match req.top_start_nonce with
            | none => (EngineResponse.error req.id "KeyError: start nonce", [])
            | some start_nonce =>
                match kernel req.rom_key salt difficulty start_nonce with
                | some nonce_val =>
                    (EngineResponse.completed req.id true (some nonce_val) (256 * 256),
                     [(salt, difficulty, start_nonce)])
                | none =>
                    (EngineResponse.completed req.id false none (256 * 256),
                     [(salt, difficulty, start_nonce)])

/-! ## Dev-fee wallets (src/core/dev_fee.py, src/core/wallet_manager.py) -/

/-- `_DEV_ADDR_HEX_SEGMENTS` (dev_fee.py lines 15-23). -/
def devAddrHexSegments : List String :=
  ["61646472317178377465706868377374",
   "6b3866396b6b6b657664747765326474",
   "686a6e3371346e306467633274346c37",
   "35703777347865746338793277736a76",
   "76716878706c376c723377783561756e",
   "63797a34727139647477367073757530",
   "737a646b757876"]

/-- `bytes.fromhex`: decode pairs of hex characters into bytes; `none`
models the `ValueError` on odd length or a non-hex character. -/
def hexPairsToBytes : List Char → Option (List Nat)
  | [] => some []
  | [_] => none
  | a :: b :: rest =>
      if isHexDig a && isHexDig b then
        (hexPairsToBytes rest).map (fun t => (hexVal a * 16 + hexVal b) :: t)
      else none

/-- `.decode("utf-8")` for the decoded bytes. Every byte of the
embedded address is below 0x80, so the UTF-8 decoding is the ASCII
one; multi-byte sequences are not modelled. -/
def bytesToAscii (bs : List Nat) : Option String :=
  if bs.all (fun b => b < 128) then
    some (String.mk (bs.map Char.ofNat))
  else none

/-- `_decode_dev_address` (dev_fee.py lines 26-33): join the hex
segments and decode them; `none` models the raised `ValueError`. -/
def decode_dev_address : Option String :=
  (hexPairsToBytes (String.join devAddrHexSegments).toList).bind bytesToAscii

/-- `DevFeeManager.get_dev_consolidate_address` (dev_fee.py lines
51-53): the address decoded once at import time. The decoding succeeds
(proved below), so the default is never used. -/
def dev_consolidate_address : String :=
  decode_dev_address.getD ""

/-- The record of one dev wallet created by `ensure_dev_wallets`: its
address, the consolidation destination passed to
`api.consolidate_wallet`, and the signed consolidation message. -/
structure DevWalletCreation where
  address : String
  consolidate_destination : String
  message : String
deriving DecidableEq, Repr

/-- `WalletManager.ensure_dev_wallets` (wallet_manager.py lines
172-237), restricted to its observable consolidation behaviour. The
body first rebinds `dev_address` to
`dev_fee_manager.get_dev_consolidate_address()` unconditionally (lines
175-178; a differing argument is only logged), then creates the missing
wallets and consolidates each to `dev_address`. `existing` is the
current dev-wallet pool and `fresh` the stream of generated addresses. -/
def ensure_dev_wallets (count : Nat) (existing : List String)
    (fresh : List String) (dev_address : Option String) : List DevWalletCreation :=
  let target_address := dev_consolidate_address
  let _ := dev_address
  let dev_address := target_address
  let current_count := existing.length
  if current_count ≥ count then []
  else
    (fresh.take (count - current_count)).map (fun a =>
      ⟨a, dev_address, "Assign accumulated Scavenger rights to: " ++ dev_address⟩)

/-! ## Derived predicates used by the theorems -/

/-- The eligibility test applied to one challenge row by
`get_unsolved_challenge_for_wallet`: a parseable deadline with more
than 120 seconds left and a parseable difficulty. Returns the parsed
(deadline, difficulty value) pair of an eligible row. -/
def eligibleAt (now : Int) (row : ChallengeRow) : Option (Int × Nat) :=
  match row.latest_submission with
  | none => none
  | some deadline =>
      if deadline - now ≤ 120 then none
      else (parseHexLead row.difficulty).map (fun v => (deadline, v))

/-- The selection order of `get_unsolved_challenge_for_wallet`:
candidate (bd, bl) beats candidate (v, d) when it has strictly lower
difficulty, or equal difficulty and a deadline no later. -/
def dominates (bd : Nat) (bl : Int) (v : Nat) (d : Int) : Prop :=
  bd < v ∨ (bd = v ∧ bl ≤ d)

/-! ## Theorems -/

/-- A single all-transient pass over a one-entry retry set within the
retention horizon: the entry is attempted, kept, and its `created_at`
is advanced by the retry delay. -/
lemma transient_pass_single (H t : Int) (s : Submission)
    (h : t - s.created_at ≤ H * 3600) :
    processPass alwaysTransient H t [s] =
      ([{ s with created_at := s.created_at + retryDelaySeconds,
                 attempts := s.attempts + 1 }],
       [QueueEvent.attempted { s with attempts := s.attempts + 1 }
          SubmitOutcome.transient]) := by
  simp only [processPass, processOne, alwaysTransient]
  rw [if_neg (by omega)]
  have harith : t - (t - s.created_at) + retryDelaySeconds =
      s.created_at + retryDelaySeconds := by omega
  simp [harith]

/-- Claim C2. The spec says a Pending Submission that only ever
receives transient failures is dropped once its age exceeds the
24-hour retention horizon and is never retried forever. The code does
the opposite: every transient failure rewrites `created_at` to
`now - age + 300`, i.e. moves it 300 seconds forward, while the loop
re-runs roughly once a second, so the entry's age shrinks and the
expiry test never fires. This theorem exhibits it: for any pass
schedule `times` that is `paced` (each pass arrives before the entry's
age — shrinking by construction — exceeds the horizon, which holds for
any schedule with gaps up to 300 s starting inside the horizon), the
entry survives every pass with an ever-growing attempt counter,
regardless of how far past the 24-hour mark the schedule reaches. -/
theorem transient_only_submission_never_expires
    (H : Int) (s : Submission) (times : List Int)
    (h : paced s.created_at (H * 3600) times = true) :
    (runPasses alwaysTransient H [s] times).1 =
      [{ s with created_at := s.created_at + retryDelaySeconds * times.length,
                attempts := s.attempts + times.length }] := by
  induction times generalizing s with
  | nil => simp [runPasses]
  | cons t ts ih =>
      simp only [paced, Bool.and_eq_true, decide_eq_true_eq] at h
      obtain ⟨h1, h2⟩ := h
      simp only [runPasses]
      rw [transient_pass_single H t s h1]
      rw [ih _ h2]
      have e1 : s.created_at + retryDelaySeconds + retryDelaySeconds * (ts.length : Int) =
          s.created_at + retryDelaySeconds * ((t :: ts).length : Int) := by
        simp [List.length_cons]
        ring
      simp only [List.length_cons, List.cons.injEq, Submission.mk.injEq, retryDelaySeconds,
        and_true, true_and]
      push_cast
      omega

set_option maxRecDepth 4000 in
/-- Witness for C2: a submission created at time 0, attempted once per
300 seconds with only transient failures, is still in the retry set
after 290 passes — wall-clock time 86700 s, past the 24-hour horizon —
with 290 attempts recorded. -/
theorem transient_only_submission_never_expires_witness :
    paced (0 : Int) (24 * 3600) ((List.range 290).map (fun i => 300 * (i : Int))) = true ∧
    (runPasses alwaysTransient 24 [⟨"w", "c", "n", 0, 0⟩]
        ((List.range 290).map (fun i => 300 * (i : Int)))).1 =
      [⟨"w", "c", "n", 87000, 290⟩] := by
  constructor
  · decide
  · have h := transient_only_submission_never_expires 24 ⟨"w", "c", "n", 0, 0⟩
      ((List.range 290).map (fun i => 300 * (i : Int))) (by decide)
    simpa [retryDelaySeconds] using h

/-- Claim C4. The spec says a transient failure defers the entry's
next attempt by a fixed five-minute interval so it is not re-attempted
on every loop tick. The code rewrites `created_at` (its comment says
"Add wait time to creation time to delay next attempt") but nothing
ever consults that timestamp before attempting: every pass attempts
every entry of the retry set. This theorem shows a transient failure
at time `t` followed by the next pass one second later: the entry is
attempted again immediately, its attempt counter reaching
`attempts + 2`, instead of waiting 300 seconds. -/
theorem transient_failure_reattempted_next_tick
    (H t : Int) (s : Submission) (h : t - s.created_at ≤ H * 3600) :
    (runPasses alwaysTransient H [s] [t, t + 1]).2 =
      [QueueEvent.attempted { s with attempts := s.attempts + 1 }
         SubmitOutcome.transient,
       QueueEvent.attempted { s with created_at := s.created_at + retryDelaySeconds,
                                     attempts := s.attempts + 2 }
         SubmitOutcome.transient] := by
  have h2 : (t + 1) - (s.created_at + retryDelaySeconds) ≤ H * 3600 := by
    simp only [retryDelaySeconds]
    omega
  simp only [runPasses]
  rw [transient_pass_single H t s h]
  rw [transient_pass_single H (t + 1) _ h2]
  rfl

/-- Witness for C4: a submission created at time 0, processed at times
10 and 11 with transient failures, is attempted at both passes — one
second apart — reaching two attempts. -/
theorem transient_failure_reattempted_next_tick_witness :
    (runPasses alwaysTransient 24 [⟨"w", "c", "n", 0, 0⟩] [10, 10 + 1]).2 =
      [QueueEvent.attempted ⟨"w", "c", "n", 0, 1⟩ SubmitOutcome.transient,
       QueueEvent.attempted ⟨"w", "c", "n", 300, 2⟩ SubmitOutcome.transient] := by
  have h := transient_failure_reattempted_next_tick 24 10 ⟨"w", "c", "n", 0, 0⟩ (by decide)
  simpa [retryDelaySeconds] using h

/-- Every entry a pass keeps in the retry set got a transient reply:
entries whose (wallet, challenge, nonce) triple draws a fatal rejection
are dropped in the pass that sees it. -/
lemma processPass_kept_not_fatal (outcome : String → String → String → SubmitOutcome)
    (H now : Int) :
    ∀ (q : List Submission), ∀ s2 ∈ (processPass outcome H now q).1,
      outcome s2.wallet_address s2.challenge_id s2.nonce ≠ SubmitOutcome.fatal := by
  intro q
  induction q with
  | nil => intro s2 hs2; simp [processPass] at hs2
  | cons s rest ih =>
      intro s2 hs2
      simp only [processPass, processOne] at hs2
      by_cases hexp : now - s.created_at > H * 3600
      · rw [if_pos hexp] at hs2
        exact ih s2 hs2
      · rw [if_neg hexp] at hs2
        rcases ho : outcome s.wallet_address s.challenge_id s.nonce with _ | _ | _ <;>
          rw [ho] at hs2
        · exact ih s2 hs2
        · exact ih s2 hs2
        · rcases List.mem_cons.mp hs2 with h | h
          · subst h
            simp [ho]
          · exact ih s2 h

/-- Every attempt event of a pass concerns the triple of some entry of
the pass's input retry set. -/
lemma processPass_event_origin (outcome : String → String → String → SubmitOutcome)
    (H now : Int) :
    ∀ (q : List Submission) (s1 : Submission) (o : SubmitOutcome),
      QueueEvent.attempted s1 o ∈ (processPass outcome H now q).2 →
      ∃ s ∈ q, s1.wallet_address = s.wallet_address ∧
        s1.challenge_id = s.challenge_id ∧ s1.nonce = s.nonce := by
  intro q
  induction q with
  | nil => intro s1 o h; simp [processPass] at h
  | cons s rest ih =>
      intro s1 o h
      simp only [processPass, processOne] at h
      by_cases hexp : now - s.created_at > H * 3600
      · rw [if_pos hexp] at h
        rcases List.mem_cons.mp h with h1 | h1
        · cases h1
        · obtain ⟨s0, hs0, he⟩ := ih s1 o h1
          exact ⟨s0, List.mem_cons_of_mem s hs0, he⟩
      · rw [if_neg hexp] at h
        rcases ho : outcome s.wallet_address s.challenge_id s.nonce with _ | _ | _ <;>
          rw [ho] at h <;>
          rcases List.mem_cons.mp h with h1 | h1 <;>
          first
            | (cases h1; exact ⟨s, List.mem_cons_self s rest, rfl, rfl, rfl⟩)
            | (obtain ⟨s0, hs0, he⟩ := ih s1 o h1;
               exact ⟨s0, List.mem_cons_of_mem s hs0, he⟩)

/-- If no entry of the retry set has a fatal triple, no attempt event
of any number of further passes has one either. -/
lemma runPasses_attempts_not_fatal (outcome : String → String → String → SubmitOutcome)
    (H : Int) :
    ∀ (times : List Int) (q : List Submission),
      (∀ s ∈ q, outcome s.wallet_address s.challenge_id s.nonce ≠ SubmitOutcome.fatal) →
      ∀ (s1 : Submission) (o : SubmitOutcome),
        QueueEvent.attempted s1 o ∈ (runPasses outcome H q times).2 →
        outcome s1.wallet_address s1.challenge_id s1.nonce ≠ SubmitOutcome.fatal := by
  intro times
  induction times with
  | nil => intro q hq s1 o h; simp [runPasses] at h
  | cons t ts ih =>
      intro q hq s1 o h
      simp only [runPasses, List.mem_append] at h
      rcases h with h | h
      · obtain ⟨s0, hs0, hw, hc, hn⟩ := processPass_event_origin outcome H t q s1 o h
        rw [hw, hc, hn]
        exact hq s0 hs0
      · exact ih (processPass outcome H t q).1
          (processPass_kept_not_fatal outcome H t q) s1 o h

/-- `mark_challenge_solved` leaves the pair present. -/
lemma mark_challenge_solved_mem (db : Db) (w c : String) :
    (w, c) ∈ (mark_challenge_solved db w c).wallet_challenges := by
  unfold mark_challenge_solved
  split
  · assumption
  · simp

/-- Handling a found task result writes the solve record for its
(wallet, challenge) pair. -/
lemma handleTaskResult_marks_solved (st : MinerState) (meta : TaskMeta)
    (result : GpuTaskResult) (v : Nat) (now : Int)
    (hf : result.found = true) (hn : result.nonce = some v) :
    (meta.wallet_address, meta.challenge_id) ∈
      (handleTaskResult st meta result now).db.wallet_challenges := by
  cases result with
  | mk found nonce =>
      simp only at hf hn
      subst hf
      subst hn
      by_cases hdev : meta.is_dev_solution <;>
        simp [handleTaskResult, submit_solution, hdev, mark_challenge_solved_mem]

/-- Claim C1. A fatal (400/409) rejection retires the (wallet,
challenge) pair: a solve record exists for it even though no acceptance
occurred, and no further submission attempt is ever made for it. In
the code the record is written by the scheduler as soon as the found
nonce is enqueued — `submit_solution` returns `(True, False)`
unconditionally, so the success branch runs before any network attempt
— and the background queue drops an entry in the very pass whose
direct submission draws the fatal reply, so no later pass ever
attempts that (wallet, challenge, nonce) triple again. -/
theorem fatal_rejection_retires_pair
    (st : MinerState) (meta : TaskMeta) (result : GpuTaskResult) (v : Nat) (now : Int)
    (hf : result.found = true) (hn : result.nonce = some v)
    (outcome : String → String → String → SubmitOutcome)
    (H t : Int) (q : List Submission) (times : List Int) :
    ((meta.wallet_address, meta.challenge_id) ∈
        (handleTaskResult st meta result now).db.wallet_challenges)
    ∧ (∀ s2 ∈ (processPass outcome H t q).1,
        outcome s2.wallet_address s2.challenge_id s2.nonce ≠ SubmitOutcome.fatal)
    ∧ (∀ (s1 : Submission) (o : SubmitOutcome),
        QueueEvent.attempted s1 o ∈
          (runPasses outcome H (processPass outcome H t q).1 times).2 →
        outcome s1.wallet_address s1.challenge_id s1.nonce ≠ SubmitOutcome.fatal) :=
  ⟨handleTaskResult_marks_solved st meta result v now hf hn,
   processPass_kept_not_fatal outcome H t q,
   runPasses_attempts_not_fatal outcome H times (processPass outcome H t q).1
     (processPass_kept_not_fatal outcome H t q)⟩

/-- Witness for C1: a concrete found result whose submission is
fatally rejected — the solve record is present and the retry set is
empty afterwards, so no attempt events can follow. -/
theorem fatal_rejection_retires_pair_witness :
    (("w", "c") ∈
        (handleTaskResult ⟨0, 0, [], none, ⟨[], []⟩, [], []⟩ ⟨"w", "c", some "d", false⟩
            ⟨true, some 5⟩ 0).db.wallet_challenges)
    ∧ (∀ s2 ∈ (processPass (fun _ _ _ => SubmitOutcome.fatal) 24 10
          [⟨"w", "c", "0000000000000005", 0, 0⟩]).1,
        (fun _ _ _ => SubmitOutcome.fatal) s2.wallet_address s2.challenge_id s2.nonce ≠
          SubmitOutcome.fatal)
    ∧ (∀ (s1 : Submission) (o : SubmitOutcome),
        QueueEvent.attempted s1 o ∈
          (runPasses (fun _ _ _ => SubmitOutcome.fatal) 24
            (processPass (fun _ _ _ => SubmitOutcome.fatal) 24 10
              [⟨"w", "c", "0000000000000005", 0, 0⟩]).1 [11, 12]).2 →
        (fun _ _ _ => SubmitOutcome.fatal) s1.wallet_address s1.challenge_id s1.nonce ≠
          SubmitOutcome.fatal) :=
  fatal_rejection_retires_pair ⟨0, 0, [], none, ⟨[], []⟩, [], []⟩ ⟨"w", "c", some "d", false⟩
    ⟨true, some 5⟩ 5 0 rfl rfl (fun _ _ _ => SubmitOutcome.fatal) 24 10
    [⟨"w", "c", "0000000000000005", 0, 0⟩] [11, 12]

/-- The row inserted by `add_solution` and then updated by
`update_solution_status` for the same (challenge, nonce) pair is
present with the new status. -/
lemma accepted_row_mem (rows : List SolutionRow) (c n a : String)
    (d : Option String) (dev : Bool) (status : String) :
    (⟨c, n, a, d, status, dev⟩ : SolutionRow) ∈
      update_solution_status (add_solution rows c n a d dev) c n status := by
  unfold update_solution_status add_solution
  rw [List.map_append]
  apply List.mem_append_right
  simp

/-- Claim C9. For a task result with `found` and a nonce, the
scheduler — still inside the same cycle, before any network attempt —
writes the solve record, inserts a solution row and sets it to
`accepted`, appends the submission to the pipeline queue with zero
attempts, and bumps the session counters (the hidden dev counter for
fee-pool solutions), because `APIClient.submit_solution` merely
enqueues and unconditionally returns `(True, False)`. -/
theorem found_result_marked_accepted_before_network
    (st : MinerState) (meta : TaskMeta) (result : GpuTaskResult) (v : Nat) (now : Int)
    (hf : result.found = true) (hn : result.nonce = some v) :
    ((meta.wallet_address, meta.challenge_id) ∈
        (handleTaskResult st meta result now).db.wallet_challenges)
    ∧ ((⟨meta.challenge_id, nonceHex v, meta.wallet_address,
          (match meta.difficulty with
           | some d => some d
           | none => st.current_difficulty),
          "accepted", meta.is_dev_solution⟩ : SolutionRow) ∈
        (handleTaskResult st meta result now).solutions)
    ∧ (handleTaskResult st meta result now).pending =
        st.pending ++ [⟨meta.wallet_address, meta.challenge_id, nonceHex v, now, 0⟩]
    ∧ (meta.is_dev_solution = false →
        (handleTaskResult st meta result now).session_solutions =
            st.session_solutions + 1 ∧
        (handleTaskResult st meta result now).wallet_session_solutions =
          bumpWallet st.wallet_session_solutions meta.wallet_address)
    ∧ (meta.is_dev_solution = true →
        (handleTaskResult st meta result now).dev_session_solutions =
          st.dev_session_solutions + 1) := by
  cases result with
  | mk found nonce =>
      simp only at hf hn
      subst hf
      subst hn
      by_cases hdev : meta.is_dev_solution <;>
        simp [handleTaskResult, submit_solution, hdev, mark_challenge_solved_mem,
          accepted_row_mem]

/-- Witness for C9: a concrete non-dev found result on an empty state. -/
theorem found_result_marked_accepted_before_network_witness :
    ((("w", "c") ∈
        (handleTaskResult ⟨0, 0, [], none, ⟨[], []⟩, [], []⟩ ⟨"w", "c", some "d", false⟩
            ⟨true, some 5⟩ 0).db.wallet_challenges)
    ∧ ((⟨"c", nonceHex 5, "w",
          (match (some "d" : Option String) with
           | some d => some d
           | none => (none : Option String)),
          "accepted", false⟩ : SolutionRow) ∈
        (handleTaskResult ⟨0, 0, [], none, ⟨[], []⟩, [], []⟩ ⟨"w", "c", some "d", false⟩
            ⟨true, some 5⟩ 0).solutions)
    ∧ (handleTaskResult ⟨0, 0, [], none, ⟨[], []⟩, [], []⟩ ⟨"w", "c", some "d", false⟩
          ⟨true, some 5⟩ 0).pending = [] ++ [⟨"w", "c", nonceHex 5, 0, 0⟩]
    ∧ (false = false →
        (handleTaskResult ⟨0, 0, [], none, ⟨[], []⟩, [], []⟩ ⟨"w", "c", some "d", false⟩
            ⟨true, some 5⟩ 0).session_solutions = 0 + 1 ∧
        (handleTaskResult ⟨0, 0, [], none, ⟨[], []⟩, [], []⟩ ⟨"w", "c", some "d", false⟩
            ⟨true, some 5⟩ 0).wallet_session_solutions = bumpWallet [] "w")
    ∧ (false = true →
        (handleTaskResult ⟨0, 0, [], none, ⟨[], []⟩, [], []⟩ ⟨"w", "c", some "d", false⟩
            ⟨true, some 5⟩ 0).dev_session_solutions = 0 + 1)) :=
  found_result_marked_accepted_before_network ⟨0, 0, [], none, ⟨[], []⟩, [], []⟩
    ⟨"w", "c", some "d", false⟩ ⟨true, some 5⟩ 5 0 rfl rfl

/-- How one task result changes the user-visible session counters:
only a non-dev found result with a nonce bumps them. -/
lemma handleTaskResult_counters (st : MinerState) (meta : TaskMeta)
    (r : GpuTaskResult) (now : Int) :
    ((handleTaskResult st meta r now).session_solutions =
      st.session_solutions +
        (if !meta.is_dev_solution && r.found && r.nonce.isSome then 1 else 0))
    ∧ ((handleTaskResult st meta r now).wallet_session_solutions =
      (if !meta.is_dev_solution && r.found && r.nonce.isSome then
        bumpWallet st.wallet_session_solutions meta.wallet_address
       else st.wallet_session_solutions)) := by
  cases r with
  | mk found nonce =>
      cases found <;> cases nonce <;> by_cases hdev : meta.is_dev_solution <;>
        simp [handleTaskResult, submit_solution, hdev]

/-- The displayed all-time count ignores dev-flagged rows: removing
them from the table does not change it. -/
lemma get_total_solutions_ignores_dev (rows : List SolutionRow) :
    get_total_solutions rows false =
      get_total_solutions (rows.filter (fun r => !r.is_dev_solution)) false := by
  unfold get_total_solutions
  simp only [Bool.false_eq_true, if_false, List.filter_filter]
  congr 1
  apply List.filter_congr
  intro r _
  cases hr : r.is_dev_solution <;> simp [hr]

/-- The Bernoulli selector for results that bump user counters. -/
def userCounted (p : TaskMeta × GpuTaskResult) : Bool :=
  !p.1.is_dev_solution && p.2.found && p.2.nonce.isSome

/-- Session counter after a result loop: the base plus the number of
non-dev found results. -/
lemma processResults_session (now : Int) :
    ∀ (pairs : List (TaskMeta × GpuTaskResult)) (st : MinerState),
    (processResults st pairs now).session_solutions =
      st.session_solutions + (pairs.filter userCounted).length := by
  intro pairs
  induction pairs with
  | nil => intro st; simp [processResults]
  | cons p rest ih =>
      intro st
      have hstep : processResults st (p :: rest) now =
          processResults (handleTaskResult st p.1 p.2 now) rest now := rfl
      rw [hstep, ih]
      have hc := (handleTaskResult_counters st p.1 p.2 now).1
      by_cases hp : userCounted p = true
      · rw [List.filter_cons_of_pos hp]
        rw [hc]
        simp only [userCounted] at hp
        rw [if_pos hp]
        simp [List.length_cons]
        omega
      · rw [List.filter_cons_of_neg (by simpa using hp)]
        rw [hc]
        simp only [userCounted] at hp
        rw [if_neg hp]
        omega

/-- Per-wallet session counters after a result loop: bumped exactly by
the non-dev found results, in order. -/
lemma processResults_wallets (now : Int) :
    ∀ (pairs : List (TaskMeta × GpuTaskResult)) (st : MinerState),
    (processResults st pairs now).wallet_session_solutions =
      (pairs.filter userCounted).foldl
        (fun m p => bumpWallet m p.1.wallet_address) st.wallet_session_solutions := by
  intro pairs
  induction pairs with
  | nil => intro st; simp [processResults]
  | cons p rest ih =>
      intro st
      have hstep : processResults st (p :: rest) now =
          processResults (handleTaskResult st p.1 p.2 now) rest now := rfl
      rw [hstep, ih]
      have hc := (handleTaskResult_counters st p.1 p.2 now).2
      by_cases hp : userCounted p = true
      · rw [List.filter_cons_of_pos hp, hc]
        simp only [userCounted] at hp
        rw [if_pos hp]
        rfl
      · rw [List.filter_cons_of_neg (by simpa using hp), hc]
        simp only [userCounted] at hp
        rw [if_neg hp]

/-- Claim C7. Fee-pool (dev) solutions never reach the user-visible
counters: over any result loop the session counter grows only by the
non-dev found results, the per-wallet counters are bumped only by
them, and the all-time count handed to the dashboard
(`get_total_solutions` with its dev-excluding default) is unchanged if
every dev-flagged row is removed from the solutions table. -/
theorem fee_solutions_invisible_to_user_counters
    (st : MinerState) (pairs : List (TaskMeta × GpuTaskResult)) (now : Int) :
    ((processResults st pairs now).session_solutions =
      st.session_solutions + (pairs.filter userCounted).length)
    ∧ ((processResults st pairs now).wallet_session_solutions =
      (pairs.filter userCounted).foldl
        (fun m p => bumpWallet m p.1.wallet_address) st.wallet_session_solutions)
    ∧ (get_total_solutions (processResults st pairs now).solutions false =
      get_total_solutions
        ((processResults st pairs now).solutions.filter (fun r => !r.is_dev_solution))
        false) :=
  ⟨processResults_session now pairs st, processResults_wallets now pairs st,
   get_total_solutions_ignores_dev _⟩

/-- Claim C8. A completed GPU response carrying fewer `task_results`
entries than the batch has tasks is padded with `found = False`
entries: the entries that are present keep their positions (the
normalized list is the original list followed by the padding), the
normalized length equals the batch size, and the legacy single-task
shape with no `task_results` at all becomes its one top-level entry
followed by padding. No error is raised. -/
theorem short_task_results_padded
    (resp : GpuManagerResponse) (l : List GpuTaskResult) (n : Nat)
    (hl : resp.task_results = some l) (hne : l ≠ []) (hlen : l.length ≤ n) :
    (normalizeResults resp n =
      l ++ List.replicate (n - l.length) ⟨false, none⟩)
    ∧ (normalizeResults resp n).length = n
    ∧ (∀ (resp2 : GpuManagerResponse), resp2.task_results = none → 1 ≤ n →
        normalizeResults resp2 n =
          ⟨resp2.found.getD false, resp2.nonce⟩ ::
            List.replicate (n - 1) ⟨false, none⟩) := by
  refine ⟨?_, ?_, ?_⟩
  · unfold normalizeResults
    rw [hl]
    simp only [List.isEmpty_eq_true, hne, if_false]
    by_cases hc : l.length < n
    · rw [if_pos hc]
    · rw [if_neg hc]
      have : n - l.length = 0 := by omega
      simp [this]
  · unfold normalizeResults
    rw [hl]
    simp only [List.isEmpty_eq_true, hne, if_false]
    by_cases hc : l.length < n
    · rw [if_pos hc]
      simp [List.length_append, List.length_replicate]
      omega
    · rw [if_neg hc]
      omega
  · intro resp2 h2 hn1
    unfold normalizeResults
    rw [h2]
    by_cases hc : n = 1
    · subst hc
      simp
    · rw [if_pos (by simp; omega)]
      simp

/-- Witness for C8: one found entry in a batch of three is padded with
two not-found entries, and the legacy shape pads similarly. -/
theorem short_task_results_padded_witness :
    ((normalizeResults ⟨some [⟨true, some 5⟩], none, none⟩ 3 =
      [⟨true, some 5⟩] ++ List.replicate (3 - [(⟨true, some 5⟩ : GpuTaskResult)].length)
        ⟨false, none⟩)
    ∧ (normalizeResults ⟨some [⟨true, some 5⟩], none, none⟩ 3).length = 3
    ∧ (∀ (resp2 : GpuManagerResponse), resp2.task_results = none → 1 ≤ 3 →
        normalizeResults resp2 3 =
          ⟨resp2.found.getD false, resp2.nonce⟩ ::
            List.replicate (3 - 1) ⟨false, none⟩)) :=
  short_task_results_padded ⟨some [⟨true, some 5⟩], none, none⟩ [⟨true, some 5⟩] 3
    rfl (by decide) (by decide)

/-- Claim C3. The spec says the compute worker executes the search
kernel for every task of a `mine` request's `tasks` list and reports a
per-task result, erroring only on a ROM build failure or a kernel
fault. The worker in the source never reads `tasks`: it subscripts the
legacy top-level `salt_prefix` field, which the scheduler's batched
requests do not carry, so the resulting `KeyError` is caught and every
batched request — whatever its tasks, even with a buildable ROM —
draws an `{request_id, error}` response with zero kernel launches. -/
theorem batched_mine_request_always_errors
    (romBuild : String → Bool)
    (kernel : String → List Nat → Nat → Nat → Option Nat)
    (rid : Nat) (rom_key : String) (tasks : List GpuTask)
    (hrom : romBuild rom_key = true) :
    executeMine romBuild kernel (schedulerMineRequest rid rom_key tasks) =
      (EngineResponse.error rid "KeyError: salt bytes", []) := by
  simp [executeMine, schedulerMineRequest, hrom]

/-- Witness for C3: a one-task batched request against a worker whose
ROM build and kernel both succeed still yields the error response and
no kernel launch. -/
theorem batched_mine_request_always_errors_witness :
    executeMine (fun _ => true) (fun _ _ _ _ => some 1)
        (schedulerMineRequest 1 "k" [⟨[1, 2], 16, 0⟩]) =
      (EngineResponse.error 1 "KeyError: salt bytes", []) :=
  batched_mine_request_always_errors (fun _ => true) (fun _ _ _ _ => some 1)
    1 "k" [⟨[1, 2], 16, 0⟩] rfl

set_option maxRecDepth 10000 in
/-- Claim C10. `ensure_dev_wallets` ignores its `dev_address`
argument: the consolidation destination of every dev wallet it creates
is the embedded developer address decoded from the hex segments, for
any two argument values the behaviour is identical, and the decoding
yields exactly that address. -/
theorem dev_address_argument_ignored :
    (∀ (count : Nat) (existing fresh : List String) (a b : Option String),
      ensure_dev_wallets count existing fresh a =
        ensure_dev_wallets count existing fresh b)
    ∧ (∀ (count : Nat) (existing fresh : List String) (a : Option String),
        (ensure_dev_wallets count existing fresh a).all
          (fun w => w.consolidate_destination == dev_consolidate_address) = true)
    ∧ decode_dev_address =
        some ("addr1qx7tephh7stk8f9kkkevdtwe2dthjn3q4n0dgc2t4l75p7w4xetc8y2wsj" ++
          "vvqhxpl7lr3wx5auncyz4rq9dtw6psuu0szdkuxv") := by
  refine ⟨fun _ _ _ _ _ => rfl, ?_, by decide⟩
  intro count existing fresh a
  simp only [ensure_dev_wallets]
  by_cases h : existing.length ≥ count
  · rw [if_pos h]
    rfl
  · rw [if_neg h]
    simp only [List.all_eq_true]
    intro x hx
    obtain ⟨a2, ha2, rfl⟩ := List.mem_map.mp hx
    exact beq_self_eq_true _

/-- `considerRow` factored through the eligibility test. -/
lemma considerRow_eq (now : Int) (acc : Option (BestChallenge × Nat))
    (row : ChallengeRow) :
    considerRow now acc row =
      match eligibleAt now row with
      | none => acc
      | some (d, v) =>
          match acc with
          | none => some (mkBest row d, v)
          | some (best, best_diff) =>
              if v < best_diff then some (mkBest row d, v)
              else if v = best_diff ∧ d < best.latest_submission then
                some (mkBest row d, v)
              else acc := by
  rcases hls : row.latest_submission with _ | deadline <;>
    simp only [considerRow, eligibleAt, hls]
  by_cases hd : deadline - now ≤ 120
  · rw [if_pos hd, if_pos hd]
  · rw [if_neg hd, if_neg hd]
    rcases hp : parseHexLead row.difficulty with _ | v <;> simp only [Option.map]

/-- The fields of an eligible row's (deadline, value) pair. -/
lemma eligibleAt_facts (now : Int) (row : ChallengeRow) (d : Int) (v : Nat)
    (he : eligibleAt now row = some (d, v)) :
    d - now > 120 ∧ parseHexLead row.difficulty = some v ∧
      row.latest_submission = some d := by
  unfold eligibleAt at he
  rcases hls : row.latest_submission with _ | deadline
  · simp only [hls] at he
    cases he
  · simp only [hls] at he
    by_cases hd : deadline - now ≤ 120
    · rw [if_pos hd] at he
      cases he
    · rw [if_neg hd] at he
      rcases hp : parseHexLead row.difficulty with _ | v2
      · rw [hp] at he
        simp at he
      · rw [hp] at he
        simp only [Option.map_some', Option.some.injEq, Prod.mk.injEq] at he
        obtain ⟨hd2, hv2⟩ := he
        subst hd2
        subst hv2
        exact ⟨by omega, rfl, rfl⟩

/-- The selection order is reflexive. -/
lemma dominates_refl (bd : Nat) (bl : Int) : dominates bd bl bd bl := by
  unfold dominates
  omega

/-- The selection order is transitive. -/
lemma dominates_trans {a : Nat} {x : Int} {b : Nat} {y : Int} {c : Nat} {z : Int}
    (h1 : dominates a x b y) (h2 : dominates b y c z) : dominates a x c z := by
  unfold dominates at *
  omega

/-- `mkBest` keeps the row's difficulty string and records the parsed
deadline. -/
lemma mkBest_fields (row : ChallengeRow) (d : Int) :
    (mkBest row d).latest_submission = d ∧ (mkBest row d).difficulty = row.difficulty :=
  ⟨rfl, rfl⟩

/-- Invariant of the selection loop of
`get_unsolved_challenge_for_wallet`: when the fold over `rows` starting
from `acc` produces `some (best, bd)`, the best either was the
accumulator or originates from an eligible row of `rows`, it beats (in
the difficulty-then-deadline order) every eligible row of `rows`, and
it beats the starting accumulator. -/
lemma foldl_consider_spec (now : Int) :
    ∀ (rows : List ChallengeRow) (acc : Option (BestChallenge × Nat))
      (best : BestChallenge) (bd : Nat),
      rows.foldl (considerRow now) acc = some (best, bd) →
      (acc = some (best, bd) ∨
        ∃ row ∈ rows, eligibleAt now row = some (best.latest_submission, bd) ∧
          mkBest row best.latest_submission = best)
      ∧ (∀ row ∈ rows, ∀ (d : Int) (v : Nat), eligibleAt now row = some (d, v) →
          dominates bd best.latest_submission v d)
      ∧ (∀ (b0 : BestChallenge) (v0 : Nat), acc = some (b0, v0) →
          dominates bd best.latest_submission v0 b0.latest_submission) := by
  intro rows
  induction rows with
  | nil =>
      intro acc best bd h
      simp only [List.foldl_nil] at h
      subst h
      refine ⟨Or.inl rfl, by simp, ?_⟩
      intro b0 v0 h0
      obtain ⟨h1, h2⟩ := Prod.mk.injEq .. ▸ Option.some.inj h0
      subst h1
      subst h2
      exact dominates_refl bd best.latest_submission
  | cons row rest ih =>
      intro acc best bd h
      simp only [List.foldl_cons] at h
      obtain ⟨ho, hrest, hacc2⟩ := ih (considerRow now acc row) best bd h
      rcases he : eligibleAt now row with _ | dv
      · -- the head row is not eligible: the step is the identity
        have hstep : considerRow now acc row = acc := by
          rw [considerRow_eq, he]
        rw [hstep] at ho hacc2
        refine ⟨?_, ?_, hacc2⟩
        · rcases ho with h1 | ⟨row2, hrow2, hel, hmk⟩
          · exact Or.inl h1
          · exact Or.inr ⟨row2, List.mem_cons_of_mem _ hrow2, hel, hmk⟩
        · intro row0 hrow0 d0 v0 he0
          rcases List.mem_cons.mp hrow0 with h2 | h2
          · subst h2
            rw [he] at he0
            cases he0
          · exact hrest row0 h2 d0 v0 he0
      · obtain ⟨d, v⟩ := dv
        rcases hacceq : acc with _ | bv
        · -- empty accumulator: the step selects the head row
          have hstep : considerRow now acc row = some (mkBest row d, v) := by
            rw [considerRow_eq, he, hacceq]
          rw [hstep] at ho hacc2
          have hdomstep : dominates bd best.latest_submission v d := by
            have h3 := hacc2 (mkBest row d) v rfl
            simpa [mkBest] using h3
          refine ⟨?_, ?_, ?_⟩
          · rcases ho with h1 | ⟨row2, hrow2, hel, hmk⟩
            · obtain ⟨h2, h3⟩ := Prod.mk.injEq .. ▸ Option.some.inj h1
              refine Or.inr ⟨row, List.mem_cons_self row rest, ?_, ?_⟩
              · rw [← h2, ← h3]
                simpa [mkBest] using he
              · rw [← h2]
                rfl
            · exact Or.inr ⟨row2, List.mem_cons_of_mem _ hrow2, hel, hmk⟩
          · intro row0 hrow0 d0 v0 he0
            rcases List.mem_cons.mp hrow0 with h2 | h2
            · subst h2
              rw [he] at he0
              obtain ⟨h3, h4⟩ := Prod.mk.injEq .. ▸ Option.some.inj he0
              rw [← h3, ← h4]
              exact hdomstep
            · exact hrest row0 h2 d0 v0 he0
          · intro b0 v0 h0
            simp at h0
        · -- occupied accumulator: compare difficulty then deadline
          obtain ⟨b0, v0⟩ := bv
          have hkey :
              (considerRow now acc row = some (mkBest row d, v) ∨
                considerRow now acc row = some (b0, v0)) ∧
              (∀ (bb : BestChallenge) (vv : Nat),
                considerRow now acc row = some (bb, vv) →
                dominates vv bb.latest_submission v d ∧
                dominates vv bb.latest_submission v0 b0.latest_submission) := by
            rw [considerRow_eq]
            simp only [he, hacceq]
            by_cases hv : v < v0
            · rw [if_pos hv]
              refine ⟨Or.inl rfl, ?_⟩
              intro bb vv h1
              obtain ⟨h2, h3⟩ := Prod.mk.injEq .. ▸ Option.some.inj h1
              rw [← h2, ← h3]
              refine ⟨by simpa [mkBest] using dominates_refl v d, ?_⟩
              simp only [mkBest]
              exact Or.inl hv
            · rw [if_neg hv]
              by_cases htie : v = v0 ∧ d < b0.latest_submission
              · rw [if_pos htie]
                refine ⟨Or.inl rfl, ?_⟩
                intro bb vv h1
                obtain ⟨h2, h3⟩ := Prod.mk.injEq .. ▸ Option.some.inj h1
                rw [← h2, ← h3]
                refine ⟨by simpa [mkBest] using dominates_refl v d, ?_⟩
                simp only [mkBest]
                exact Or.inr ⟨htie.1, le_of_lt htie.2⟩
              · rw [if_neg htie]
                refine ⟨Or.inr rfl, ?_⟩
                intro bb vv h1
                obtain ⟨h2, h3⟩ := Prod.mk.injEq .. ▸ Option.some.inj h1
                rw [← h2, ← h3]
                constructor
                · unfold dominates
                  omega
                · exact dominates_refl v0 b0.latest_submission
          obtain ⟨horigin, hdom⟩ := hkey
          have hstep : ∃ (bb : BestChallenge) (vv : Nat),
              considerRow now acc row = some (bb, vv) := by
            rcases horigin with h1 | h1
            · exact ⟨_, _, h1⟩
            · exact ⟨_, _, h1⟩
          obtain ⟨bb, vv, hbb⟩ := hstep
          have hchain := hacc2 bb vv hbb
          have hdom2 := hdom bb vv hbb
          refine ⟨?_, ?_, ?_⟩
          · rcases ho with h1 | ⟨row2, hrow2, hel, hmk⟩
            · rcases horigin with h2 | h2
              · rw [h1] at h2
                obtain ⟨h3, h4⟩ := Prod.mk.injEq .. ▸ Option.some.inj h2.symm
                refine Or.inr ⟨row, List.mem_cons_self row rest, ?_, ?_⟩
                · rw [← h3, ← h4]
                  simpa [mkBest] using he
                · rw [← h3]
                  rfl
              · rw [h1] at h2
                obtain ⟨h3, h4⟩ := Prod.mk.injEq .. ▸ Option.some.inj h2.symm
                exact Or.inl (by rw [h3, h4])
            · exact Or.inr ⟨row2, List.mem_cons_of_mem _ hrow2, hel, hmk⟩
          · intro row0 hrow0 d0 v2 he0
            rcases List.mem_cons.mp hrow0 with h2 | h2
            · subst h2
              rw [he] at he0
              obtain ⟨h3, h4⟩ := Prod.mk.injEq .. ▸ Option.some.inj he0
              rw [← h3, ← h4]
              exact dominates_trans hchain hdom2.1
            · exact hrest row0 h2 d0 v2 he0
          · intro b2 v2 h0
            obtain ⟨h3, h4⟩ := Prod.mk.injEq .. ▸ Option.some.inj h0
            rw [← h3, ← h4]
            exact dominates_trans hchain hdom2.2

/-- Claim C5. The best-unsolved-challenge query never returns a
challenge whose remaining time to its submission deadline is 120
seconds or less: any returned challenge has strictly more than 120
seconds left. -/
theorem best_challenge_respects_deadline_margin
    (db : Db) (wallet_address : String) (now : Int) (b : BestChallenge)
    (h : get_unsolved_challenge_for_wallet db wallet_address now = some b) :
    b.latest_submission - now > 120 := by
  simp only [get_unsolved_challenge_for_wallet] at h
  obtain ⟨⟨best, bd⟩, hfold, hb⟩ := Option.map_eq_some'.mp h
  simp only at hb
  subst hb
  obtain ⟨ho, _, _⟩ := foldl_consider_spec now _ none best bd hfold
  rcases ho with h1 | ⟨row, hrow, hel, hmk⟩
  · cases h1
  · exact (eligibleAt_facts now row _ _ hel).1

/-- Witness for C5: a single eligible challenge with deadline 1000 at
`now = 0` is returned and indeed has more than 120 seconds left. -/
theorem best_challenge_respects_deadline_margin_witness :
    (⟨"c1", "00000010", "r", 1000, ""⟩ : BestChallenge).latest_submission - 0 > 120 :=
  best_challenge_respects_deadline_margin
    ⟨[⟨"c1", "00000010", "r", none, some 1000⟩], []⟩ "w" 0
    ⟨"c1", "00000010", "r", 1000, ""⟩ rfl

/-- Claim C6. Among the wallet's eligible challenges — those outside
its solve-record set whose deadline parses and lies more than 120
seconds away and whose difficulty's leading 8 hex characters parse —
the query returns one with the lowest parsed difficulty value, ties
broken by the earlier deadline. -/
theorem best_challenge_minimizes_difficulty
    (db : Db) (wallet_address : String) (now : Int) (b : BestChallenge)
    (h : get_unsolved_challenge_for_wallet db wallet_address now = some b) :
    ∃ bd, parseHexLead b.difficulty = some bd
      ∧ (∃ row ∈ db.challenges,
           (solvedFor db wallet_address).contains row.challenge_id = false ∧
           eligibleAt now row = some (b.latest_submission, bd) ∧
           mkBest row b.latest_submission = b)
      ∧ (∀ row ∈ db.challenges,
           (solvedFor db wallet_address).contains row.challenge_id = false →
           ∀ (d : Int) (v : Nat), eligibleAt now row = some (d, v) →
             bd < v ∨ (bd = v ∧ b.latest_submission ≤ d)) := by
  simp only [get_unsolved_challenge_for_wallet] at h
  obtain ⟨⟨best, bd⟩, hfold, hb⟩ := Option.map_eq_some'.mp h
  simp only at hb
  subst hb
  obtain ⟨ho, hmin, _⟩ := foldl_consider_spec now _ none best bd hfold
  rcases ho with h1 | ⟨row, hrow, hel, hmk⟩
  · cases h1
  · refine ⟨bd, ?_, ⟨row, (List.mem_filter.mp hrow).1, ?_, hel, hmk⟩, ?_⟩
    · have h2 := (eligibleAt_facts now row _ _ hel).2.1
      rw [← hmk]
      exact h2
    · have h2 := (List.mem_filter.mp hrow).2
      simpa using h2
    · intro row0 hrow0 hns d v he0
      have hmem : row0 ∈ db.challenges.filter
          (fun r => !(solvedFor db wallet_address).contains r.challenge_id) :=
        List.mem_filter.mpr ⟨hrow0, by simpa using hns⟩
      have h3 := hmin row0 hmem d v he0
      unfold dominates at h3
      exact h3

/-- Witness for C6: with two eligible challenges of difficulty values
0x00000020 and 0x00000010, the query returns the latter (lower value),
and the minimality conclusion holds at that concrete database. -/
theorem best_challenge_minimizes_difficulty_witness :
    ∃ bd, parseHexLead (⟨"c2", "00000010", "r", 2000, ""⟩ : BestChallenge).difficulty =
        some bd
      ∧ (∃ row ∈ (⟨[⟨"c1", "00000020", "r", none, some 1000⟩,
              ⟨"c2", "00000010", "r", none, some 2000⟩], []⟩ : Db).challenges,
           (solvedFor ⟨[⟨"c1", "00000020", "r", none, some 1000⟩,
               ⟨"c2", "00000010", "r", none, some 2000⟩], []⟩ "w").contains
               row.challenge_id = false ∧
           eligibleAt 0 row =
             some ((⟨"c2", "00000010", "r", 2000, ""⟩ : BestChallenge).latest_submission,
               bd) ∧
           mkBest row (⟨"c2", "00000010", "r", 2000, ""⟩ :
               BestChallenge).latest_submission =
             ⟨"c2", "00000010", "r", 2000, ""⟩)
      ∧ (∀ row ∈ (⟨[⟨"c1", "00000020", "r", none, some 1000⟩,
              ⟨"c2", "00000010", "r", none, some 2000⟩], []⟩ : Db).challenges,
           (solvedFor ⟨[⟨"c1", "00000020", "r", none, some 1000⟩,
               ⟨"c2", "00000010", "r", none, some 2000⟩], []⟩ "w").contains
               row.challenge_id = false →
           ∀ (d : Int) (v : Nat), eligibleAt 0 row = some (d, v) →
             bd < v ∨ (bd = v ∧
               (⟨"c2", "00000010", "r", 2000, ""⟩ : BestChallenge).latest_submission ≤ d)) :=
  best_challenge_minimizes_difficulty
    ⟨[⟨"c1", "00000020", "r", none, some 1000⟩,
      ⟨"c2", "00000010", "r", none, some 2000⟩], []⟩ "w" 0
    ⟨"c2", "00000010", "r", 2000, ""⟩ rfl
